import Mathlib

/-!
Verification of the PDF-ESG-Analyzer core pipeline.

This file embeds, as executable Lean definitions, the functions of
`pdf_extractor.py` (heading detection, spatial bbox filtering, sentence box
consolidation, OCR coordinate conversion, the pipeline entry point) and of
`semantic_search/search.py` (threshold-based relevance filtering), together
with the extraction/scoring glue of `app.py` (`upload_pdf`).

External providers (PyMuPDF geometry, pytesseract OCR, the sentence
tokenizer, and the embedding model) are black boxes per the design: their
outputs appear as parameters (lists of spans/boxes, offset ranges, and a
similarity function `String → List ℚ` standing for the cosine similarities
of a text's embedding against the precomputed keyword embeddings).

Floating point is modelled by exact rationals `ℚ`; all arithmetic in the
source is plain `+ - * /` and comparisons, which `ℚ` reproduces exactly.
Python string length (code points) is modelled by `String.length`;
`str.isupper` is modelled on the ASCII range.
-/

/-- A bounding box `(x0, y0, x1, y1)`, as the 4-tuples PyMuPDF reports and
the dict `{"x0": …, "y0": …, "x1": …, "y1": …}` the extractor emits. -/
structure Box where
  x0 : ℚ
  y0 : ℚ
  x1 : ℚ
  y1 : ℚ
deriving DecidableEq, Repr

/-- The `"type"` field of an emitted region: `"heading"` or `"sentence"`. -/
inductive RType where
  | heading
  | sentence
deriving DecidableEq, Repr

/-- One result dict of `extract_pdf_regions` / `ocr_fallback_regions`:
page number, type, text, coords, page dimensions, optional font size. -/
structure Region where
  page : Nat
  rtype : RType
  text : String
  coords : Box
  pageWidth : ℚ
  pageHeight : ℚ
  fontSize : Option ℚ
deriving DecidableEq, Repr

/-- A region augmented with its `similarity` score, as produced by
`run_semantic_search` (`chunk.copy()` plus the `similarity` key). -/
abbrev ScoredRegion := Region × ℚ

/-- One PyMuPDF span: its (raw) text and font size. -/
structure Span where
  text : String
  size : ℚ
deriving DecidableEq, Repr

/-- One PyMuPDF line: its spans and its bounding box. -/
structure Line where
  spans : List Span
  bbox : Box
deriving DecidableEq, Repr

/-- One entry of the per-page `indices` list:
`(start_pos, end_pos, line_bbox, block_bbox)`. -/
structure LineSpan where
  startPos : Nat
  endPos : Nat
  box : Box
  blockBox : Option Box
deriving DecidableEq, Repr

/-- The per-page accumulation state of `extract_pdf_regions`:
the `bulk` flow-text buffer and the `indices` list. -/
structure PageState where
  bulk : String
  indices : List LineSpan
deriving DecidableEq, Repr

/-- Python `str.strip()`: drop leading and trailing whitespace. (The core
`String.trim` is observationally the same but is not kernel-reducible, so the
embedding uses this structural definition.) -/
def pyStrip (s : String) : String :=
  ⟨((s.data.dropWhile Char.isWhitespace).reverse.dropWhile Char.isWhitespace).reverse⟩

/-- Python `str.isupper`, modelled on the ASCII range: at least one cased
(alphabetic) character, and every cased character is upper-case. -/
def pyIsUpper (s : String) : Bool :=
  s.data.any (fun c => c.isAlpha) && s.data.all (fun c => !c.isAlpha || c.isUpper)

/-- `is_heading(text, size)` from `pdf_extractor.py`:
`text.isupper() and size > 16`. -/
def is_heading (text : String) (size : ℚ) : Bool :=
  pyIsUpper text && decide (16 < size)

/-- Vertical center `(y0 + y1) / 2` of a box (`bbox[1]`, `bbox[3]`). -/
def vcenter (b : Box) : ℚ := (b.y0 + b.y1) / 2

/-- Python `sorted` on rationals: ascending sort. -/
def sortedAsc (l : List ℚ) : List ℚ := List.insertionSort (· ≤ ·) l

/-- `median_y = sorted(y_positions)[len(y_positions) // 2]` over the
vertical centers of `bboxes` (only evaluated on lists of length ≥ 2,
where the index is in range; `getD` supplies an irrelevant default). -/
def medianCenters (bboxes : List Box) : ℚ :=
  let y_positions := bboxes.map vcenter
  (sortedAsc y_positions).getD (y_positions.length / 2) 0

/-- `filter_spatially_close_bboxes(bboxes, max_vertical_distance=50)` from
`pdf_extractor.py`: empty in, empty out; singleton unchanged; otherwise keep
the boxes whose vertical center is strictly within the tolerance of the
median center, falling back to the whole input if that filter empties. -/
def filter_spatially_close_bboxes (bboxes : List Box) (max_vertical_distance : ℚ) : List Box :=
  if bboxes = [] then []
  else if bboxes.length = 1 then bboxes
  else
    let filtered := bboxes.filter
      (fun b => decide (|vcenter b - medianCenters bboxes| < max_vertical_distance))
    if filtered = [] then bboxes else filtered

/-- The combined bounding box of lines 133–136 of `pdf_extractor.py`:
`min` of the `x0`s, `min` of the `y0`s, `max` of the `x1`s, `max` of the
`y1`s of a non-empty list (`none` on the empty list, unreachable there). -/
def combinedBox : List Box → Option Box
  | [] => none
  | b :: rest =>
    some {
      x0 := (rest.map Box.x0).foldl min b.x0
      y0 := (rest.map Box.y0).foldl min b.y0
      x1 := (rest.map Box.x1).foldl max b.x1
      y1 := (rest.map Box.y1).foldl max b.y1 }

/-- Lines 121–136 of `pdf_extractor.py` for one sentence: drop when no
overlapping boxes exist; filter spatially (only when more than one box,
with the default tolerance 50) and merge via the min/max union. -/
def consolidateSentenceBoxes (overlap_bboxes : List Box) : Option Box :=
  if overlap_bboxes = [] then none
  else combinedBox
    (if 1 < overlap_bboxes.length
      then filter_spatially_close_bboxes overlap_bboxes 50
      else overlap_bboxes)

/-- Lines 118–119 of `pdf_extractor.py`: the list comprehension
`[b for s, e, b, block_b in indices if not (e < sent_start or s > sent_end)]`. -/
def overlapBoxes (indices : List LineSpan) (sent_start sent_end : Nat) : List Box :=
  (indices.filter
    (fun sp => !(decide (sp.endPos < sent_start) || decide (sp.startPos > sent_end)))).map
    LineSpan.box

/-- Non-empty intersection of the half-open ranges `[s, e)` and `[ss, se)`.
`rangesOverlap_iff_exists` below shows this equals the existence of a
common offset. -/
def rangesOverlap (s e ss se : Nat) : Prop := max s ss < min e se

/-- Lines 111–151 of `pdf_extractor.py` for one tokenized sentence whose
offsets `[sent_start, sent_end)` in the buffer have been resolved: collect
overlapping boxes, consolidate, and wrap into a sentence Region (or drop). -/
def sentenceRegionOf (pageNum : Nat) (page_w page_h : ℚ) (indices : List LineSpan)
    (sent_start sent_end : Nat) (sent : String) : Option Region :=
  match consolidateSentenceBoxes (overlapBoxes indices sent_start sent_end) with
  | none => none
  | some box =>
    some { page := pageNum, rtype := RType.sentence, text := pyStrip sent, coords := box,
           pageWidth := page_w, pageHeight := page_h, fontSize := none }

/-- Python `" ".join(parts)`. -/
def joinSpace : List String → String
  | [] => ""
  | [t] => t
  | t :: rest => t ++ " " ++ joinSpace rest

/-- `sizes = [span["size"] for span in line["spans"] if span["text"].strip()]`. -/
def lineSizes (spans : List Span) : List ℚ :=
  spans.filterMap (fun sp => if pyStrip sp.text = "" then none else some sp.size)

/-- `np.max` / Python `max` over a list of rationals (meaningful on
non-empty lists, where it is the maximum element). -/
def npMax (l : List ℚ) : ℚ := l.foldl max (l.headD 0)

/-- `line_txt = " ".join(span["text"].strip() for span in line["spans"]
if span["text"].strip())`. -/
def lineText (spans : List Span) : String :=
  joinSpace (spans.filterMap (fun sp => if pyStrip sp.text = "" then none else some (pyStrip sp.text)))

/-- Lines 76–106 of `pdf_extractor.py` for one line of one block: skip
lines with no non-empty span (or empty joined text); emit a heading Region
when `is_heading` holds; otherwise append the text and a trailing space to
the page buffer and record the `(start_pos, end_pos, bbox, block_bbox)`
index entry. -/
def processLine (pageNum : Nat) (page_w page_h : ℚ) (block_bbox : Option Box)
    (line : Line) (st : PageState) : PageState × Option Region :=
  if lineSizes line.spans = [] then (st, none)
  else
    let fsize := npMax (lineSizes line.spans)
    let line_txt := lineText line.spans
    if line_txt = "" then (st, none)
    else if is_heading line_txt fsize then
      (st, some { page := pageNum, rtype := RType.heading, text := pyStrip line_txt,
                  coords := line.bbox, pageWidth := page_w, pageHeight := page_h,
                  fontSize := some fsize })
    else
      let start_pos := st.bulk.length
      let bulk := st.bulk ++ line_txt ++ " "
      let end_pos := bulk.length
      ({ bulk := bulk,
         indices := st.indices ++
           [{ startPos := start_pos, endPos := end_pos, box := line.bbox,
              blockBox := block_bbox }] }, none)

/-- Lines 186–195 of `pdf_extractor.py`: scale an OCR pixel box (top-left
origin) into the page's point coordinate space (bottom-left origin) via
`sx = page_w / pix.width`, `sy = page_h / pix.height`. -/
def ocrConvert (page_w page_h pixW pixH x y w h : ℚ) : Box :=
  let sx := page_w / pixW
  let sy := page_h / pixH
  { x0 := x * sx
    y0 := page_h - (y + h) * sy
    x1 := (x + w) * sx
    y1 := page_h - y * sy }

/-- `run_semantic_search` from `semantic_search/search.py`, with the
embedding model abstracted: `simsOf t` is the vector of cosine similarities
of the embedding of text `t` against the precomputed keyword embeddings.
Each chunk whose maximum similarity meets the threshold is kept, augmented
with that maximum; the early return on an empty input coincides with the
general path. -/
def run_semantic_search (simsOf : String → List ℚ) (similarity_threshold : ℚ)
    (extracted_chunks : List Region) : List ScoredRegion :=
  extracted_chunks.filterMap (fun chunk =>
    let max_sim := npMax (simsOf chunk.text)
    if similarity_threshold ≤ max_sim then some (chunk, max_sim) else none)

/-- `extract_esg_pdf_sentences` from `pdf_extractor.py`, abstracted over the
two providers' outcomes: `vecRegions` is what `extract_pdf_regions` produced
and `ocrRegions` what `ocr_fallback_regions` would produce. Returns the
selected region list (`none` = the Python `None` no-content signal) paired
with whether the OCR fallback was invoked. -/
def extract_esg_pdf_sentences (vecRegions ocrRegions : List Region) :
    Option (List Region) × Bool :=
  if vecRegions = [] then
    if ocrRegions = [] then (none, true) else (some ocrRegions, true)
  else (some vecRegions, false)

/-- The extraction/scoring core of `upload_pdf` in `app.py` (lines 88–99):
a `None` extraction becomes the 400 error `"No text found in the PDF"`,
otherwise the semantic search result is returned as the success payload. -/
def upload_pdf (vecRegions ocrRegions : List Region) (simsOf : String → List ℚ)
    (threshold : ℚ) : Except String (List ScoredRegion) :=
  match (extract_esg_pdf_sentences vecRegions ocrRegions).1 with
  | none => Except.error "No text found in the PDF"
  | some extracted_data => Except.ok (run_semantic_search simsOf threshold extracted_data)

/-- The box invariant of spec §8: ordered corners, within the page. -/
def validBox (page_w page_h : ℚ) (b : Box) : Prop :=
  b.x0 ≤ b.x1 ∧ b.y0 ≤ b.y1 ∧ 0 ≤ b.x0 ∧ b.x1 ≤ page_w ∧ 0 ≤ b.y0 ∧ b.y1 ≤ page_h

instance (page_w page_h : ℚ) (b : Box) : Decidable (validBox page_w page_h b) := by
  unfold validBox
  infer_instance

/-! ### Helper lemmas -/

lemma foldl_min_le_init (l : List ℚ) (a : ℚ) : l.foldl min a ≤ a := by
  induction l generalizing a with
  | nil => exact le_refl a
  | cons x xs ih => exact le_trans (ih (min a x)) (min_le_left a x)

lemma le_foldl_min (l : List ℚ) (a B : ℚ) (ha : B ≤ a) (h : ∀ x ∈ l, B ≤ x) :
    B ≤ l.foldl min a := by
  induction l generalizing a with
  | nil => exact ha
  | cons x xs ih =>
    exact ih (min a x) (le_min ha (h x (List.mem_cons_self x xs)))
      (fun y hy => h y (List.mem_cons_of_mem x hy))

lemma init_le_foldl_max (l : List ℚ) (a : ℚ) : a ≤ l.foldl max a := by
  induction l generalizing a with
  | nil => exact le_refl a
  | cons x xs ih => exact le_trans (le_max_left a x) (ih (max a x))

lemma foldl_max_le (l : List ℚ) (a B : ℚ) (ha : a ≤ B) (h : ∀ x ∈ l, x ≤ B) :
    l.foldl max a ≤ B := by
  induction l generalizing a with
  | nil => exact ha
  | cons x xs ih =>
    exact ih (max a x) (max_le ha (h x (List.mem_cons_self x xs)))
      (fun y hy => h y (List.mem_cons_of_mem x hy))

lemma filter_spatially_subset (bboxes : List Box) (d : ℚ) :
    ∀ b ∈ filter_spatially_close_bboxes bboxes d, b ∈ bboxes := by
  intro b hb
  by_cases h0 : bboxes = []
  · subst h0
    simp [filter_spatially_close_bboxes] at hb
  · by_cases h1 : bboxes.length = 1
    · simpa [filter_spatially_close_bboxes, h0, h1] using hb
    · simp only [filter_spatially_close_bboxes, if_neg h0, if_neg h1] at hb
      split at hb
      · exact hb
      · exact List.mem_of_mem_filter hb

lemma filter_spatially_ne_nil (bboxes : List Box) (d : ℚ) (h : bboxes ≠ []) :
    filter_spatially_close_bboxes bboxes d ≠ [] := by
  by_cases h1 : bboxes.length = 1
  · simp [filter_spatially_close_bboxes, h, h1]
  · simp only [filter_spatially_close_bboxes, if_neg h, if_neg h1]
    split
    · exact h
    · assumption

lemma combinedBox_eq_none_iff (bs : List Box) : combinedBox bs = none ↔ bs = [] := by
  cases bs <;> simp [combinedBox]

lemma consolidate_eq_none_iff (bs : List Box) :
    consolidateSentenceBoxes bs = none ↔ bs = [] := by
  by_cases h : bs = []
  · simp [consolidateSentenceBoxes, h]
  · simp only [consolidateSentenceBoxes, if_neg h, combinedBox_eq_none_iff]
    constructor
    · intro hc
      split at hc
      · exact absurd hc (filter_spatially_ne_nil bs 50 h)
      · exact absurd hc h
    · intro hc
      exact absurd hc h

lemma run_semantic_search_eq (simsOf : String → List ℚ) (t : ℚ) (chunks : List Region) :
    run_semantic_search simsOf t chunks =
      (chunks.filter (fun c => decide (t ≤ npMax (simsOf c.text)))).map
        (fun c => (c, npMax (simsOf c.text))) := by
  induction chunks with
  | nil => rfl
  | cons c rest ih =>
    by_cases h : t ≤ npMax (simsOf c.text) <;>
      simp [run_semantic_search, List.filterMap_cons, List.filter_cons, h] <;>
      simpa [run_semantic_search] using ih

lemma run_semantic_search_anti (simsOf : String → List ℚ) (t1 t2 : ℚ) (h : t1 ≤ t2)
    (chunks : List Region) :
    List.Sublist (run_semantic_search simsOf t2 chunks) (run_semantic_search simsOf t1 chunks) := by
  rw [run_semantic_search_eq, run_semantic_search_eq]
  refine List.Sublist.map _ (List.monotone_filter_right chunks ?_)
  intro c hc
  simp only [decide_eq_true_eq] at hc ⊢
  exact le_trans h hc

lemma length_pos_of_ne_empty (s : String) (h : s ≠ "") : 0 < s.length := by
  cases s with
  | mk d =>
    cases d with
    | nil => exact absurd rfl h
    | cons a t => simp [String.length]

lemma joinSpace_ne_empty (parts : List String) (hne : parts ≠ [])
    (hall : ∀ p ∈ parts, p ≠ "") : joinSpace parts ≠ "" := by
  match parts with
  | [] => exact absurd rfl hne
  | [t] => exact hall t (List.mem_cons_self t [])
  | t :: u :: rest =>
    intro hcontra
    have hlen := congrArg String.length hcontra
    rw [show joinSpace (t :: u :: rest) = t ++ " " ++ joinSpace (u :: rest) from rfl,
      String.length_append, String.length_append] at hlen
    have hsp : (" " : String).length = 1 := rfl
    have hnil : ("" : String).length = 0 := rfl
    omega

lemma lineSizes_ne_nil (spans : List Span) (h : ∃ sp ∈ spans, pyStrip sp.text ≠ "") :
    lineSizes spans ≠ [] := by
  obtain ⟨sp, hmem, hsp⟩ := h
  have : sp.size ∈ lineSizes spans := by
    unfold lineSizes
    rw [List.mem_filterMap]
    exact ⟨sp, hmem, by simp [hsp]⟩
  exact List.ne_nil_of_mem this

lemma lineText_ne_empty (spans : List Span) (h : ∃ sp ∈ spans, pyStrip sp.text ≠ "") :
    lineText spans ≠ "" := by
  obtain ⟨sp, hmem, hsp⟩ := h
  unfold lineText
  apply joinSpace_ne_empty
  · have : pyStrip sp.text ∈ spans.filterMap
        (fun sp => if pyStrip sp.text = "" then none else some (pyStrip sp.text)) := by
      rw [List.mem_filterMap]
      exact ⟨sp, hmem, by simp [hsp]⟩
    exact List.ne_nil_of_mem this
  · intro p hp
    rw [List.mem_filterMap] at hp
    obtain ⟨q, _, hq⟩ := hp
    by_cases hq2 : pyStrip q.text = "" <;> simp [hq2] at hq
    rw [← hq]
    exact hq2

lemma mem_overlapBoxes (indices : List LineSpan) (ss se : Nat) (b : Box) :
    b ∈ overlapBoxes indices ss se ↔
      ∃ sp, sp ∈ indices ∧ sp.box = b ∧ ss ≤ sp.endPos ∧ sp.startPos ≤ se := by
  unfold overlapBoxes
  rw [List.mem_map]
  constructor
  · rintro ⟨sp, hsp, rfl⟩
    rw [List.mem_filter] at hsp
    obtain ⟨hmem, hcond⟩ := hsp
    simp only [Bool.not_eq_true', Bool.or_eq_false_iff, decide_eq_false_iff_not,
      not_lt, gt_iff_lt] at hcond
    exact ⟨sp, hmem, rfl, hcond.1, hcond.2⟩
  · rintro ⟨sp, hmem, rfl, h1, h2⟩
    refine ⟨sp, ?_, rfl⟩
    rw [List.mem_filter]
    refine ⟨hmem, ?_⟩
    simp only [Bool.not_eq_true', Bool.or_eq_false_iff, decide_eq_false_iff_not,
      not_lt, gt_iff_lt]
    exact ⟨h1, h2⟩

lemma rangesOverlap_iff_exists (s e ss se : Nat) :
    rangesOverlap s e ss se ↔ ∃ i, s ≤ i ∧ i < e ∧ ss ≤ i ∧ i < se := by
  unfold rangesOverlap
  constructor
  · intro h
    exact ⟨max s ss, le_max_left s ss, by omega, le_max_right s ss, by omega⟩
  · rintro ⟨i, h1, h2, h3, h4⟩
    omega

/-! ### Claim theorems -/

/-- C4: for every non-empty candidate list, the spatial filter returns a
non-empty list (falling back to the original set when the median-distance
filter would eliminate every candidate), so sentence-box consolidation never
yields no box when at least one candidate existed. -/
theorem spatial_filter_never_empties (bboxes : List Box) (max_vertical_distance : ℚ)
    (h : bboxes ≠ []) :
    filter_spatially_close_bboxes bboxes max_vertical_distance ≠ [] ∧
      consolidateSentenceBoxes bboxes ≠ none := by
  refine ⟨filter_spatially_ne_nil bboxes max_vertical_distance h, ?_⟩
  intro hc
  exact h ((consolidate_eq_none_iff bboxes).mp hc)

/-- C4 witness: a concrete non-empty input keeps a non-empty filter output
and a consolidated box. -/
theorem spatial_filter_never_empties_w :
    filter_spatially_close_bboxes [⟨0, 0, 1, 1⟩] 50 ≠ [] ∧
      consolidateSentenceBoxes [⟨0, 0, 1, 1⟩] ≠ none :=
  spatial_filter_never_empties [⟨0, 0, 1, 1⟩] 50 (by decide)

/-- C5: consolidating a single-box candidate list is the identity: the
spatial filter returns the singleton unchanged and the min/max merge of a
singleton reproduces the same rectangle. -/
theorem consolidate_singleton_identity (b : Box) :
    filter_spatially_close_bboxes [b] 50 = [b] ∧ consolidateSentenceBoxes [b] = some b := by
  constructor
  · simp [filter_spatially_close_bboxes]
  · simp [consolidateSentenceBoxes, combinedBox]

/-- C9: the relevance scorer keeps exactly the chunks whose maximum keyword
similarity meets the threshold, augments each with that maximum as its
`similarity`, and preserves the relative input order (its projection to the
regions is a sublist of the input — a stable filter, no re-sorting). -/
theorem relevance_filter_exact (simsOf : String → List ℚ) (t : ℚ) (chunks : List Region) :
    run_semantic_search simsOf t chunks =
        (chunks.filter (fun c => decide (t ≤ npMax (simsOf c.text)))).map
          (fun c => (c, npMax (simsOf c.text))) ∧
      List.Sublist ((run_semantic_search simsOf t chunks).map Prod.fst) chunks := by
  refine ⟨run_semantic_search_eq simsOf t chunks, ?_⟩
  rw [run_semantic_search_eq, List.map_map]
  have hid : (Prod.fst ∘ fun c => ((c : Region), npMax (simsOf c.text))) = id := rfl
  rw [hid, List.map_id]
  exact List.filter_sublist chunks

/-- C10: for a fixed input and thresholds `t1 ≤ t2`, every region retained at
`t2` is retained at `t1`, and raising the threshold never increases the size
of the retained set. -/
theorem relevance_threshold_monotone (simsOf : String → List ℚ) (t1 t2 : ℚ) (h : t1 ≤ t2)
    (chunks : List Region) :
    (∀ x ∈ run_semantic_search simsOf t2 chunks, x ∈ run_semantic_search simsOf t1 chunks) ∧
      (run_semantic_search simsOf t2 chunks).length ≤
        (run_semantic_search simsOf t1 chunks).length := by
  have hs := run_semantic_search_anti simsOf t1 t2 h chunks
  exact ⟨fun x hx => hs.subset hx, hs.length_le⟩

/-- C10 witness: concrete thresholds `1/4 ≤ 3/4` on a one-chunk input. -/
theorem relevance_threshold_monotone_w :
    (run_semantic_search (fun _ => [1/2]) (3/4)
        [⟨1, RType.sentence, "a", ⟨0, 0, 1, 1⟩, 612, 792, none⟩]).length ≤
      (run_semantic_search (fun _ => [1/2]) (1/4)
        [⟨1, RType.sentence, "a", ⟨0, 0, 1, 1⟩, 612, 792, none⟩]).length :=
  (relevance_threshold_monotone (fun _ => [1/2]) (1/4) (3/4) (by norm_num)
    [⟨1, RType.sentence, "a", ⟨0, 0, 1, 1⟩, 612, 792, none⟩]).2

/-- C6: the OCR pixel-to-page conversion emits exactly
`x0 = x·sx`, `x1 = (x+w)·sx`, `y0 = page_h − (y+h)·sy`, `y1 = page_h − y·sy`
with `sx = page_w/raster_width`, `sy = page_h/raster_height`; and for
`w, h ≥ 0` and positive scales the converted box is ordered:
`x0 ≤ x1` and `y0 ≤ y1`. -/
theorem ocr_conversion_formula_and_order (page_w page_h pixW pixH x y w h : ℚ)
    (hw : 0 ≤ w) (hh : 0 ≤ h) (hsx : 0 < page_w / pixW) (hsy : 0 < page_h / pixH) :
    ocrConvert page_w page_h pixW pixH x y w h =
        { x0 := x * (page_w / pixW), y0 := page_h - (y + h) * (page_h / pixH),
          x1 := (x + w) * (page_w / pixW), y1 := page_h - y * (page_h / pixH) } ∧
      (ocrConvert page_w page_h pixW pixH x y w h).x0 ≤
          (ocrConvert page_w page_h pixW pixH x y w h).x1 ∧
        (ocrConvert page_w page_h pixW pixH x y w h).y0 ≤
          (ocrConvert page_w page_h pixW pixH x y w h).y1 := by
  refine ⟨rfl, ?_, ?_⟩
  · show x * (page_w / pixW) ≤ (x + w) * (page_w / pixW)
    nlinarith [mul_nonneg hw hsx.le]
  · show page_h - (y + h) * (page_h / pixH) ≤ page_h - y * (page_h / pixH)
    nlinarith [mul_nonneg hh hsy.le]

/-- C6 witness: the spec's own numeric example — pixel box
`(x=10, y=20, w=30, h=15)` on a `(1200, 1550)` raster of a `(612, 792)`
page. -/
theorem ocr_conversion_formula_and_order_w :
    (ocrConvert 612 792 1200 1550 10 20 30 15).x0 ≤
        (ocrConvert 612 792 1200 1550 10 20 30 15).x1 ∧
      (ocrConvert 612 792 1200 1550 10 20 30 15).y0 ≤
        (ocrConvert 612 792 1200 1550 10 20 30 15).y1 :=
  (ocr_conversion_formula_and_order 612 792 1200 1550 10 20 30 15 (by norm_num)
    (by norm_num) (by norm_num) (by norm_num)).2

lemma sentenceRegionOf_eq_none_iff (pageNum : Nat) (pw ph : ℚ) (indices : List LineSpan)
    (ss se : Nat) (sent : String) :
    sentenceRegionOf pageNum pw ph indices ss se sent = none ↔
      overlapBoxes indices ss se = [] := by
  cases hcb : consolidateSentenceBoxes (overlapBoxes indices ss se) with
  | none =>
    simp [sentenceRegionOf, hcb, (consolidate_eq_none_iff _).mp hcb, consolidateSentenceBoxes]
  | some box =>
    have hne : overlapBoxes indices ss se ≠ [] := by
      intro hnil
      have h2 := (consolidate_eq_none_iff (overlapBoxes indices ss se)).mpr hnil
      rw [hcb] at h2
      exact Option.noConfusion h2
    simp [sentenceRegionOf, hcb, hne]

/-- C2 counterexample: the span `[0, 5)` does not intersect the sentence
range `[5, 10)` under half-open semantics, yet the code's filter
(`not (e < sent_start or s > sent_end)`) passes its box to consolidation —
the claimed "exactly the intersecting spans" is false. -/
theorem overlap_filter_includes_touching_span :
    overlapBoxes [⟨0, 5, ⟨0, 0, 10, 10⟩, none⟩] 5 10 = [⟨0, 0, 10, 10⟩] ∧
      ¬ rangesOverlap 0 5 5 10 := by
  constructor
  · decide
  · unfold rangesOverlap
    decide

/-- C2 amended: the boxes passed to consolidation are exactly those of the
LineSpans with `sent_start ≤ end ∧ start ≤ sent_end` (closed-range overlap,
which also admits spans merely touching the sentence range at an endpoint);
every genuinely intersecting span is among them; and the sentence is dropped
(producing no Region) precisely when no LineSpan satisfies that condition. -/
theorem overlap_filter_characterization (indices : List LineSpan) (ss se : Nat) :
    (∀ b : Box, b ∈ overlapBoxes indices ss se ↔
        ∃ sp, sp ∈ indices ∧ sp.box = b ∧ ss ≤ sp.endPos ∧ sp.startPos ≤ se) ∧
      (∀ sp ∈ indices, rangesOverlap sp.startPos sp.endPos ss se →
        sp.box ∈ overlapBoxes indices ss se) ∧
      (∀ (pageNum : Nat) (pw ph : ℚ) (sent : String),
        sentenceRegionOf pageNum pw ph indices ss se sent = none ↔
          overlapBoxes indices ss se = []) := by
  refine ⟨mem_overlapBoxes indices ss se, ?_, ?_⟩
  · intro sp hsp hov
    unfold rangesOverlap at hov
    rw [mem_overlapBoxes]
    exact ⟨sp, hsp, rfl, by omega, by omega⟩
  · intro pageNum pw ph sent
    exact sentenceRegionOf_eq_none_iff pageNum pw ph indices ss se sent

/-- C2 witness: a span genuinely intersecting the sentence range is kept. -/
theorem overlap_filter_characterization_w :
    Box.mk 0 0 10 10 ∈ overlapBoxes [⟨0, 5, ⟨0, 0, 10, 10⟩, none⟩] 0 3 :=
  (overlap_filter_characterization [⟨0, 5, ⟨0, 0, 10, 10⟩, none⟩] 0 3).2.1
    ⟨0, 5, ⟨0, 0, 10, 10⟩, none⟩ (List.mem_cons_self _ _)
    (show max 0 0 < min 5 3 by decide)

/-- C3: for two or more candidates (with a non-degenerate filter), the code
retains exactly the boxes whose vertical center `(y0+y1)/2` lies strictly
within 50 points of the median of all candidate centers (the element at
index `⌊n/2⌋` of the ascending-sorted centers, the upper median), and the
consolidated output is the bounding union (min `x0`, min `y0`, max `x1`,
max `y1`) of that retained set. -/
theorem consolidation_median_filter_merge (bs : List Box) (h2 : 2 ≤ bs.length)
    (hne : bs.filter (fun b => decide (|vcenter b - medianCenters bs| < 50)) ≠ []) :
    (∀ b : Box,
        b ∈ bs.filter (fun b => decide (|vcenter b - medianCenters bs| < 50)) ↔
          b ∈ bs ∧ |vcenter b - medianCenters bs| < 50) ∧
      consolidateSentenceBoxes bs =
        combinedBox (bs.filter (fun b => decide (|vcenter b - medianCenters bs| < 50))) := by
  constructor
  · intro b
    rw [List.mem_filter]
    simp
  · have h0 : bs ≠ [] := by
      intro h
      rw [h] at h2
      simp at h2
    have h1 : ¬ bs.length = 1 := by omega
    have hlt : 1 < bs.length := by omega
    simp only [consolidateSentenceBoxes, if_neg h0, if_pos hlt,
      filter_spatially_close_bboxes, if_neg h0, if_neg h1]
    rw [if_neg hne]

/-- C3 witness: three candidate boxes with vertical centers 100, 100 and
500; the median is 100, the outlier at 500 is excluded, and the merge is
the bounding union of the two retained boxes. -/
theorem consolidation_median_filter_merge_w :
    consolidateSentenceBoxes [⟨0, 90, 10, 110⟩, ⟨0, 95, 10, 105⟩, ⟨0, 490, 10, 510⟩] =
      combinedBox (([⟨0, 90, 10, 110⟩, ⟨0, 95, 10, 105⟩, ⟨0, 490, 10, 510⟩] : List Box).filter
        (fun b => decide (|vcenter b -
          medianCenters [⟨0, 90, 10, 110⟩, ⟨0, 95, 10, 105⟩, ⟨0, 490, 10, 510⟩]| < 50))) :=
  (consolidation_median_filter_merge [⟨0, 90, 10, 110⟩, ⟨0, 95, 10, 105⟩, ⟨0, 490, 10, 510⟩]
    (by decide)
    (by
      norm_num [medianCenters, sortedAsc, vcenter, List.insertionSort, List.orderedInsert,
        List.filter, abs_sub_lt_iff]
      decide)).2

lemma combinedBox_valid (page_w page_h : ℚ) (bs : List Box) (m : Box)
    (hv : ∀ b ∈ bs, validBox page_w page_h b) (hcb : combinedBox bs = some m) :
    validBox page_w page_h m := by
  match bs with
  | [] => exact Option.noConfusion hcb
  | c :: cs =>
    simp only [combinedBox, Option.some.injEq] at hcb
    subst hcb
    obtain ⟨hc1, hc2, hc3, hc4, hc5, hc6⟩ := hv c (List.mem_cons_self c cs)
    have hx0 : ∀ v ∈ cs.map Box.x0, 0 ≤ v := by
      intro v hvm
      obtain ⟨b, hb, rfl⟩ := List.mem_map.mp hvm
      exact (hv b (List.mem_cons_of_mem c hb)).2.2.1
    have hx1 : ∀ v ∈ cs.map Box.x1, v ≤ page_w := by
      intro v hvm
      obtain ⟨b, hb, rfl⟩ := List.mem_map.mp hvm
      exact (hv b (List.mem_cons_of_mem c hb)).2.2.2.1
    have hy0 : ∀ v ∈ cs.map Box.y0, 0 ≤ v := by
      intro v hvm
      obtain ⟨b, hb, rfl⟩ := List.mem_map.mp hvm
      exact (hv b (List.mem_cons_of_mem c hb)).2.2.2.2.1
    have hy1 : ∀ v ∈ cs.map Box.y1, v ≤ page_h := by
      intro v hvm
      obtain ⟨b, hb, rfl⟩ := List.mem_map.mp hvm
      exact (hv b (List.mem_cons_of_mem c hb)).2.2.2.2.2
    refine ⟨?_, ?_, ?_, ?_, ?_, ?_⟩
    · exact le_trans (foldl_min_le_init _ _)
        (le_trans hc1 (init_le_foldl_max (cs.map Box.x1) c.x1))
    · exact le_trans (foldl_min_le_init _ _)
        (le_trans hc2 (init_le_foldl_max (cs.map Box.y1) c.y1))
    · exact le_foldl_min (cs.map Box.x0) c.x0 0 hc3 hx0
    · exact foldl_max_le (cs.map Box.x1) c.x1 page_w hc4 hx1
    · exact le_foldl_min (cs.map Box.y0) c.y0 0 hc5 hy0
    · exact foldl_max_le (cs.map Box.y1) c.y1 page_h hc6 hy1

/-- C7: every produced Region box is ordered and inside the page, given the
provider-supplied coordinates. Three conjuncts, one per producing site:
the min/max consolidation of provider line boxes each valid for the page
yields a valid box; a heading Region passes its provider line box through
unchanged (hence valid when the provider's is); and an OCR word box lying
inside the raster converts to a valid page box for positive dimensions. -/
theorem region_box_invariants :
    (∀ (page_w page_h : ℚ) (bs : List Box) (m : Box),
        (∀ b ∈ bs, validBox page_w page_h b) →
        consolidateSentenceBoxes bs = some m → validBox page_w page_h m) ∧
      (∀ (pageNum : Nat) (page_w page_h : ℚ) (block_bbox : Option Box) (line : Line)
          (st : PageState) (r : Region),
        validBox page_w page_h line.bbox →
        (processLine pageNum page_w page_h block_bbox line st).2 = some r →
        r.coords = line.bbox ∧ validBox page_w page_h r.coords) ∧
      (∀ page_w page_h pixW pixH x y w h : ℚ,
        0 < page_w → 0 < page_h → 0 < pixW → 0 < pixH →
        0 ≤ x → 0 ≤ y → 0 ≤ w → 0 ≤ h → x + w ≤ pixW → y + h ≤ pixH →
        validBox page_w page_h (ocrConvert page_w page_h pixW pixH x y w h)) := by
  refine ⟨?_, ?_, ?_⟩
  · intro page_w page_h bs m hv hsome
    by_cases h0 : bs = []
    · rw [h0] at hsome
      simp [consolidateSentenceBoxes] at hsome
    · simp only [consolidateSentenceBoxes, if_neg h0] at hsome
      have hsubset : ∀ b ∈ (if 1 < bs.length then filter_spatially_close_bboxes bs 50 else bs),
          b ∈ bs := by
        split
        · exact filter_spatially_subset bs 50
        · intro b hb
          exact hb
      exact combinedBox_valid page_w page_h _ m (fun b hb => hv b (hsubset b hb)) hsome
  · intro pageNum page_w page_h block_bbox line st r hvb hsome
    by_cases hsz : lineSizes line.spans = []
    · simp [processLine, hsz] at hsome
    · by_cases htxt : lineText line.spans = ""
      · simp [processLine, hsz, htxt] at hsome
      · by_cases hh : is_heading (lineText line.spans) (npMax (lineSizes line.spans)) = true
        · simp only [processLine, if_neg hsz, if_neg htxt, hh, if_true,
            Option.some.injEq] at hsome
          have hco : r.coords = line.bbox := by
            rw [← hsome]
          exact ⟨hco, hco ▸ hvb⟩
        · simp [processLine, hsz, htxt, hh] at hsome
  · intro page_w page_h pixW pixH x y w h hpw hph hpxw hpxh hx hy hw hh hxw hyh
    have hsx : 0 < page_w / pixW := div_pos hpw hpxw
    have hsy : 0 < page_h / pixH := div_pos hph hpxh
    have hcx : pixW * (page_w / pixW) = page_w := by
      field_simp
    have hcy : pixH * (page_h / pixH) = page_h := by
      field_simp
    refine ⟨?_, ?_, ?_, ?_, ?_, ?_⟩
    · show x * (page_w / pixW) ≤ (x + w) * (page_w / pixW)
      nlinarith [mul_nonneg hw hsx.le]
    · show page_h - (y + h) * (page_h / pixH) ≤ page_h - y * (page_h / pixH)
      nlinarith [mul_nonneg hh hsy.le]
    · show 0 ≤ x * (page_w / pixW)
      exact mul_nonneg hx hsx.le
    · show (x + w) * (page_w / pixW) ≤ page_w
      nlinarith [mul_le_mul_of_nonneg_right hxw hsx.le]
    · show 0 ≤ page_h - (y + h) * (page_h / pixH)
      nlinarith [mul_le_mul_of_nonneg_right hyh hsy.le]
    · show page_h - y * (page_h / pixH) ≤ page_h
      nlinarith [mul_nonneg hy hsy.le]

/-- C7 witness: all three producing sites at concrete inputs — a singleton
consolidation, a concrete heading line, and the spec's OCR example box. -/
theorem region_box_invariants_w :
    validBox 612 792 ⟨1, 2, 3, 4⟩ ∧
      (Region.mk 1 RType.heading "CLIMATE RISK" ⟨0, 0, 100, 20⟩ 612 792 (some 20)).coords =
          Box.mk 0 0 100 20 ∧
      validBox 612 792 (ocrConvert 612 792 1200 1550 10 20 30 15) :=
  ⟨region_box_invariants.1 612 792 [⟨1, 2, 3, 4⟩] ⟨1, 2, 3, 4⟩ (by decide) (by decide),
   (region_box_invariants.2.1 1 612 792 none ⟨[⟨"CLIMATE RISK", 20⟩], ⟨0, 0, 100, 20⟩⟩ ⟨"", []⟩
      ⟨1, RType.heading, "CLIMATE RISK", ⟨0, 0, 100, 20⟩, 612, 792, some 20⟩
      (by decide) (by decide)).1,
   region_box_invariants.2.2 612 792 1200 1550 10 20 30 15 (by norm_num) (by norm_num)
     (by norm_num) (by norm_num) (by norm_num) (by norm_num) (by norm_num) (by norm_num)
     (by norm_num) (by norm_num)⟩

/-- C8: a line with at least one non-empty span is emitted as a Heading
Region iff its joined, stripped text is fully upper-case (Python
`str.isupper`) and the maximum font size among its non-empty spans is
strictly greater than 16; in the heading case the emitted Region carries
exactly that text, box and font size and the buffer is untouched, and in
the non-heading case the line's text (plus a separating space) enters the
flow buffer and its offset range and box are recorded in the index. -/
theorem heading_classification_iff (pageNum : Nat) (page_w page_h : ℚ)
    (block_bbox : Option Box) (line : Line) (st : PageState)
    (h : ∃ sp ∈ line.spans, pyStrip sp.text ≠ "") :
    ((processLine pageNum page_w page_h block_bbox line st).2.isSome = true ↔
        (pyIsUpper (lineText line.spans) = true ∧ 16 < npMax (lineSizes line.spans))) ∧
      (is_heading (lineText line.spans) (npMax (lineSizes line.spans)) = true →
        processLine pageNum page_w page_h block_bbox line st =
          (st, some { page := pageNum, rtype := RType.heading,
                      text := pyStrip (lineText line.spans), coords := line.bbox,
                      pageWidth := page_w, pageHeight := page_h,
                      fontSize := some (npMax (lineSizes line.spans)) })) ∧
      (is_heading (lineText line.spans) (npMax (lineSizes line.spans)) = false →
        processLine pageNum page_w page_h block_bbox line st =
          ({ bulk := st.bulk ++ lineText line.spans ++ " ",
             indices := st.indices ++
               [{ startPos := st.bulk.length,
                  endPos := (st.bulk ++ lineText line.spans ++ " ").length,
                  box := line.bbox, blockBox := block_bbox }] }, none)) := by
  have hsz := lineSizes_ne_nil line.spans h
  have htxt := lineText_ne_empty line.spans h
  by_cases hh : is_heading (lineText line.spans) (npMax (lineSizes line.spans)) = true
  · have hres : processLine pageNum page_w page_h block_bbox line st =
        (st, some { page := pageNum, rtype := RType.heading,
                    text := pyStrip (lineText line.spans), coords := line.bbox,
                    pageWidth := page_w, pageHeight := page_h,
                    fontSize := some (npMax (lineSizes line.spans)) }) := by
      simp only [processLine, if_neg hsz, if_neg htxt, hh, if_true]
    refine ⟨?_, fun _ => hres, fun hf => absurd hh (by rw [hf]; exact Bool.false_ne_true)⟩
    rw [hres]
    simp only [Option.isSome_some, true_iff]
    rw [is_heading, Bool.and_eq_true, decide_eq_true_eq] at hh
    exact hh
  · have hh2 : is_heading (lineText line.spans) (npMax (lineSizes line.spans)) = false :=
      Bool.not_eq_true _ ▸ (by
        revert hh
        cases is_heading (lineText line.spans) (npMax (lineSizes line.spans)) <;> simp)
    have hres : processLine pageNum page_w page_h block_bbox line st =
        ({ bulk := st.bulk ++ lineText line.spans ++ " ",
           indices := st.indices ++
             [{ startPos := st.bulk.length,
                endPos := (st.bulk ++ lineText line.spans ++ " ").length,
                box := line.bbox, blockBox := block_bbox }] }, none) := by
      simp only [processLine, if_neg hsz, if_neg htxt, hh2, Bool.false_eq_true, if_false]
    refine ⟨?_, fun hcontra => absurd hcontra hh, fun _ => hres⟩
    rw [hres]
    simp only [Option.isSome_none, Bool.false_eq_true, false_iff]
    intro hcl
    apply hh
    rw [is_heading, Bool.and_eq_true, decide_eq_true_eq]
    exact hcl

/-- C8 witness: the spec's example heading line `"CLIMATE RISK"` at 20pt is
emitted as a heading, and a lower-case sentence line at 11pt enters the
flow buffer instead. -/
theorem heading_classification_iff_w :
    processLine 1 612 792 none ⟨[⟨"CLIMATE RISK", 20⟩], ⟨0, 0, 100, 20⟩⟩ ⟨"", []⟩ =
        (⟨"", []⟩, some ⟨1, RType.heading, "CLIMATE RISK", ⟨0, 0, 100, 20⟩, 612, 792, some 20⟩) ∧
      processLine 1 612 792 none ⟨[⟨"The company reduced", 11⟩], ⟨0, 0, 100, 20⟩⟩ ⟨"", []⟩ =
        (⟨"The company reduced ", [⟨0, 20, ⟨0, 0, 100, 20⟩, none⟩]⟩, none) :=
  ⟨by
    have hth := (heading_classification_iff 1 612 792 none
      ⟨[⟨"CLIMATE RISK", 20⟩], ⟨0, 0, 100, 20⟩⟩ ⟨"", []⟩
      ⟨⟨"CLIMATE RISK", 20⟩, List.mem_cons_self _ _, by decide⟩).2.1 (by decide)
    rw [hth]
    decide,
   by
    have hfl := (heading_classification_iff 1 612 792 none
      ⟨[⟨"The company reduced", 11⟩], ⟨0, 0, 100, 20⟩⟩ ⟨"", []⟩
      ⟨⟨"The company reduced", 11⟩, List.mem_cons_self _ _, by decide⟩).2.2 (by decide)
    rw [hfl]
    decide⟩

/-- C1 counterexample: a document whose vector path produced one Region
whose text scores below the 0.4 threshold makes the pipeline return a
SUCCESSFUL response with an EMPTY scored list — neither a non-empty
`ScoredRegion` sequence nor a typed failure, refuting the claimed
"non-empty ordered sequence of ScoredRegion or typed failure" dichotomy. -/
theorem pipeline_empty_ok_counterexample :
    upload_pdf [⟨1, RType.sentence, "hello world", ⟨0, 0, 1, 1⟩, 612, 792, none⟩] []
        (fun _ => [0]) (2/5) = Except.ok [] := by
  norm_num [upload_pdf, extract_esg_pdf_sentences, run_semantic_search, npMax, List.filterMap]

/-- C1 amended: the OCR fallback is invoked iff the vector path produced
zero Regions; extraction itself never returns an empty Region list (a
`some` result is non-empty); the no-content signal (`None` from extraction,
the 400 error in `upload_pdf`) is produced exactly when both paths yield
zero Regions; and a successful response carries the relevance-scored
sequence over whichever path's Regions were selected — which may be empty
when nothing meets the threshold. -/
theorem pipeline_fallback_and_failure_shape (vec ocr : List Region)
    (simsOf : String → List ℚ) (t : ℚ) :
    ((extract_esg_pdf_sentences vec ocr).2 = true ↔ vec = []) ∧
      (∀ l, (extract_esg_pdf_sentences vec ocr).1 = some l → l ≠ []) ∧
      ((extract_esg_pdf_sentences vec ocr).1 = none ↔ (vec = [] ∧ ocr = [])) ∧
      ((∃ e, upload_pdf vec ocr simsOf t = Except.error e) ↔ (vec = [] ∧ ocr = [])) ∧
      (∀ l, upload_pdf vec ocr simsOf t = Except.ok l →
        l = run_semantic_search simsOf t (if vec = [] then ocr else vec)) := by
  by_cases hv : vec = []
  · by_cases ho : ocr = []
    · subst hv
      subst ho
      exact ⟨by simp [extract_esg_pdf_sentences],
        by simp [extract_esg_pdf_sentences],
        by simp [extract_esg_pdf_sentences],
        by simp [upload_pdf, extract_esg_pdf_sentences],
        by simp [upload_pdf, extract_esg_pdf_sentences]⟩
    · subst hv
      have hext : extract_esg_pdf_sentences [] ocr = (some ocr, true) := by
        simp [extract_esg_pdf_sentences, ho]
      have hup : upload_pdf [] ocr simsOf t =
          Except.ok (run_semantic_search simsOf t ocr) := by
        simp [upload_pdf, hext]
      refine ⟨?_, ?_, ?_, ?_, ?_⟩
      · simp [hext]
      · intro l hl
        rw [hext] at hl
        simp only [Option.some.injEq] at hl
        rw [← hl]
        exact ho
      · simp only [hext]
        simp
        exact ho
      · simp [hup]
        exact ho
      · intro l hl
        rw [hup] at hl
        simp only [Except.ok.injEq] at hl
        simpa using hl.symm
  · have hext : extract_esg_pdf_sentences vec ocr = (some vec, false) := by
      simp [extract_esg_pdf_sentences, hv]
    have hup : upload_pdf vec ocr simsOf t =
        Except.ok (run_semantic_search simsOf t vec) := by
      simp [upload_pdf, hext]
    refine ⟨?_, ?_, ?_, ?_, ?_⟩
    · simp [hext, hv]
    · intro l hl
      rw [hext] at hl
      simp only [Option.some.injEq] at hl
      rw [← hl]
      exact hv
    · simp [hext, hv]
    · simp only [hup]
      simp
      intro hv2
      exact absurd hv2 hv
    · intro l hl
      rw [hup] at hl
      simp only [Except.ok.injEq] at hl
      simpa [hv] using hl.symm

/-- C1 witness: with both paths empty, extraction signals no content. -/
theorem pipeline_fallback_and_failure_shape_w :
    (extract_esg_pdf_sentences ([] : List Region) []).1 = none :=
  (pipeline_fallback_and_failure_shape [] [] (fun _ => [0]) 0).2.2.1.mpr ⟨rfl, rfl⟩
